import Mathlib

/-!
Shallow embedding of the `pkg/metrics` package of go-component-base.

Conventions of the embedding:
* Go `float64` values are modelled as exact rationals (`ℚ`); the code under
  verification performs only comparisons, additions and copies on them, all of
  which the rational model reflects faithfully for the inputs of interest.
* Go `uint64` counters (`atomic.Uint64`) are modelled as `Nat` reduced modulo
  `2 ^ 64` on every addition, exactly as the machine type wraps.
* Go maps are modelled as association lists with unique keys (Go maps cannot
  hold a key twice); map-valued results are compared through lookup, never
  through list order, since Go map iteration order is unspecified.
* Mutation is modelled by explicit state passing.  For the collector, whose
  claims are about aliasing (live map versus defensive copy), the heap cells
  that hold Go maps are explicit: `MapRef.live` is the collector's own
  `metrics` field (the only map the Go code ever writes to) and `MapRef.snap i`
  is the `i`-th map allocated by `Metrics()` (which the package never writes
  to after filling it).
-/

namespace GoMetrics

/-- The modulus `2 ^ 64` of Go's `uint64` arithmetic. -/
def U64 : Nat := 2 ^ 64

/-! ## CounterMetric -/

/-- Go `CounterMetric`: a name and an `atomic.Uint64` value. -/
structure CounterMetric where
  name : String
  value : Nat
deriving DecidableEq

/-- Go `NewCounter(name)`. -/
def NewCounter (name : String) : CounterMetric := ⟨name, 0⟩

/-- Go `(*CounterMetric).Value()` (returns the stored `uint64`). -/
def CounterMetric.Value (c : CounterMetric) : Nat := c.value

/-- Go `(*CounterMetric).Inc()`: `value.Add(1)` with `uint64` wraparound. -/
def CounterMetric.Inc (c : CounterMetric) : CounterMetric :=
  { c with value := (c.value + 1) % U64 }

/-- Go `(*CounterMetric).Add(delta)` with `uint64` wraparound. -/
def CounterMetric.Add (c : CounterMetric) (delta : Nat) : CounterMetric :=
  { c with value := (c.value + delta) % U64 }

/-- Go `(*CounterMetric).Reset()`: `value.Store(0)`. -/
def CounterMetric.Reset (c : CounterMetric) : CounterMetric :=
  { c with value := 0 }

/-! ## HistogramMetric -/

/-- Go `HistogramMetric`: bucket upper bounds, per-bucket cumulative counts
(`[]float64` in the source, hence rationals here), total observation count
(`atomic.Uint64`) and running sum (`float64`). -/
structure HistogramMetric where
  name : String
  buckets : List ℚ
  counts : List ℚ
  count : Nat
  sum : ℚ
deriving DecidableEq

/-- The loop body of Go `(*HistogramMetric).Observe`:
`for i, bucket := range h.buckets { if value <= bucket { h.counts[i]++; continue } }`
(the `continue` is the last statement of the loop body, so it has no effect:
every bucket with `value <= bucket` is incremented).  The source indexes
`counts` by a `buckets` index; in every state the constructor produces the two
lists have equal length, which is the only case this function is called in. -/
def observeCounts (value : ℚ) : List ℚ → List ℚ → List ℚ
  | b :: bs, c :: cs => (if value ≤ b then c + 1 else c) :: observeCounts value bs cs
  | _, cs => cs

/-- Go `(*HistogramMetric).Observe(value)`: returns immediately when
`len(h.buckets) == 0` (before touching count and sum); otherwise adds 1 to the
count, adds `value` to the sum, and bumps every bucket whose bound is
`>= value`. -/
def HistogramMetric.Observe (h : HistogramMetric) (value : ℚ) : HistogramMetric :=
  if h.buckets.length = 0 then h
  else
    { h with
      count := (h.count + 1) % U64
      sum := h.sum + value
      counts := observeCounts value h.buckets h.counts }

/-- Go `(*HistogramMetric).Value()`: a copy of the per-bucket counts. -/
def HistogramMetric.Value (h : HistogramMetric) : List ℚ := h.counts

/-- Go `(*HistogramMetric).Count()`. -/
def HistogramMetric.Count (h : HistogramMetric) : Nat := h.count

/-- Go `(*HistogramMetric).Sum()`. -/
def HistogramMetric.Sum (h : HistogramMetric) : ℚ := h.sum

/-- Go `(*HistogramMetric).Buckets()`: a copy of the bounds. -/
def HistogramMetric.Buckets (h : HistogramMetric) : List ℚ := h.buckets

/-- Go `NewHistogram(name, buckets)`: sorts the bound slice ascending
(`sort.Float64s`) and allocates a zeroed counts slice of the same length. -/
def NewHistogram (name : String) (buckets : List ℚ) : HistogramMetric :=
  let sorted := buckets.insertionSort (· ≤ ·)
  { name := name
    buckets := sorted
    counts := List.replicate sorted.length 0
    count := 0
    sum := 0 }

/-- Observing a whole list of values in order. -/
def observeAllH (h : HistogramMetric) (vs : List ℚ) : HistogramMetric :=
  vs.foldl HistogramMetric.Observe h

/-! ## SummaryMetric -/

/-- Go `SummaryMetric`: quantile configuration (`map[float64]float64` of
quantile target ↦ tolerance, modelled as an association list with unique
keys), raw retained samples, running sum and count. -/
structure SummaryMetric where
  name : String
  quantiles : List (ℚ × ℚ)
  values : List ℚ
  sum : ℚ
  count : Nat
deriving DecidableEq

/-- Go `NewSummary(name, quantiles)`. -/
def NewSummary (name : String) (quantiles : List (ℚ × ℚ)) : SummaryMetric :=
  { name := name, quantiles := quantiles, values := [], sum := 0, count := 0 }

/-- Go `(*SummaryMetric).Observe(value)`: appends to the sample slice, adds to
the sum, adds 1 to the count. -/
def SummaryMetric.Observe (s : SummaryMetric) (value : ℚ) : SummaryMetric :=
  { s with
    values := s.values ++ [value]
    sum := s.sum + value
    count := (s.count + 1) % U64 }

/-- Go `(*SummaryMetric).Count()`. -/
def SummaryMetric.Count (s : SummaryMetric) : Nat := s.count

/-- Go `(*SummaryMetric).Sum()`. -/
def SummaryMetric.Sum (s : SummaryMetric) : ℚ := s.sum

/-- Go `(*SummaryMetric).Value()`: a copy of the raw samples. -/
def SummaryMetric.Value (s : SummaryMetric) : List ℚ := s.values

/-- Go's `int(x)` conversion on a `float64`: truncation toward zero. -/
def goInt (x : ℚ) : Int := if 0 ≤ x then ⌊x⌋ else ⌈x⌉

/-- Go `l[i]` for an `int` index on a `[]float64`.  Go panics when the index
is out of range; in `Quantiles` the index is clamped below the length, and it
is nonnegative for every quantile target in `[0, 1]`, so the default value is
never produced in the cases the claims quantify over. -/
def goIndex (l : List ℚ) (i : Int) : ℚ := l.getD i.toNat 0

/-- Lookup in an association list of rationals (a Go
`map[float64]float64` read `m[q]`). -/
def lookupQ : List (ℚ × ℚ) → ℚ → Option ℚ
  | [], _ => none
  | p :: ps, q => if p.1 = q then some p.2 else lookupQ ps q

/-- Go `(*SummaryMetric).Quantiles()`: empty result when no samples are
retained; otherwise sorts a copy of the samples ascending and, for every
configured quantile key `q` (the tolerance value is never read), picks
`sortedValues[int(q * float64(len(sortedValues)))]` after clamping the index
to `len - 1`. -/
def SummaryMetric.Quantiles (s : SummaryMetric) : List (ℚ × ℚ) :=
  if s.values.length = 0 then []
  else
    let sortedValues := s.values.insertionSort (· ≤ ·)
    s.quantiles.map fun p =>
      let index : Int := goInt (p.1 * (sortedValues.length : ℚ))
      let clamped : Int :=
        if (sortedValues.length : Int) ≤ index then (sortedValues.length : Int) - 1
        else index
      (p.1, goIndex sortedValues clamped)

/-- The value `Quantiles()` associates with one quantile key `q`, as a
function of the sample list: the body of the `for q := range s.quantiles`
loop of the source, abstracted over the key.  `Quantiles` is proved equal to
a map of this function over the configuration (`Quantiles_eq_map`). -/
def rankValue (values : List ℚ) (q : ℚ) : ℚ :=
  goIndex (values.insertionSort (· ≤ ·))
    (if ((values.insertionSort (· ≤ ·)).length : Int)
          ≤ goInt (q * ((values.insertionSort (· ≤ ·)).length : ℚ))
     then ((values.insertionSort (· ≤ ·)).length : Int) - 1
     else goInt (q * ((values.insertionSort (· ≤ ·)).length : ℚ)))

/-- Go `(*SummaryMetric).Reset()`: truncates the sample slice, zeroes sum and
count. -/
def SummaryMetric.Reset (s : SummaryMetric) : SummaryMetric :=
  { s with values := [], sum := 0, count := 0 }

/-- Observing a whole list of values in order. -/
def observeAllS (s : SummaryMetric) (vs : List ℚ) : SummaryMetric :=
  vs.foldl SummaryMetric.Observe s

/-! ## Collector (registry) and reporter loop

For the registry claims only a metric's name and its object identity matter,
so a registered metric is modelled as a name plus an identity tag. -/

/-- A registered metric reference: its name and its object identity. -/
structure Metric where
  name : String
  id : Nat
deriving DecidableEq

/-- Go map read `m[name]` on a `map[string]Metric` (association list with
unique keys; `none` is Go's `nil` zero value for a missing key). -/
def mapLookup : List (String × Metric) → String → Option Metric
  | [], _ => none
  | p :: ps, n => if p.1 = n then some p.2 else mapLookup ps n

/-- The collector together with the heap cells holding Go maps:
`collectorMap` is the contents of the collector's own `metrics` map (the only
map `Register` ever writes), `snapshots` are the maps allocated by
`Metrics()`, in allocation order. -/
structure CState where
  collectorMap : List (String × Metric)
  snapshots : List (List (String × Metric))
deriving DecidableEq

/-- Go `NewCollector()`. -/
def NewCollector : CState := ⟨[], []⟩

/-- Go `(*Collector).Register(m)`: inserts under `m.Name()` only when the
name is absent; otherwise leaves the map untouched (and returns nothing — no
failure is surfaced). -/
def Register (s : CState) (m : Metric) : CState :=
  match mapLookup s.collectorMap m.name with
  | some _ => s
  | none => { s with collectorMap := s.collectorMap ++ [(m.name, m)] }

/-- Go `(*Collector).Get(name)`. -/
def Get (s : CState) (n : String) : Option Metric := mapLookup s.collectorMap n

/-- Go `(*Collector).Metrics()`: allocates a fresh map, copies every entry of
the live map into it, and returns (a reference to) the fresh map.  The
returned `Nat` is the reference of that snapshot cell. -/
def Metrics (s : CState) : CState × Nat :=
  ({ s with snapshots := s.snapshots ++ [s.collectorMap] }, s.snapshots.length)

/-- A reference to a Go map cell: the collector's live `metrics` field, or one
of the snapshot maps allocated by `Metrics()`. -/
inductive MapRef where
  | live : MapRef
  | snap : Nat → MapRef
deriving DecidableEq

/-- Dereferencing a map cell in a given state. -/
def readMap (s : CState) : MapRef → List (String × Metric)
  | .live => s.collectorMap
  | .snap i => s.snapshots.getD i []

/-- The argument Go `StartReporter`'s loop passes on each tick:
`reporter.Report(globalCollector.metrics)` — the collector's live `metrics`
field itself, not a copy (the source does not call `Metrics()`). -/
def reporterTickArg (_s : CState) : MapRef := .live

/-- Registering a whole list of metrics in order. -/
def registerAll (s : CState) (ms : List Metric) : CState :=
  ms.foldl Register s

/-! ## Helper lemmas about the registry map -/

theorem mapLookup_eq_none_iff (g : List (String × Metric)) (n : String) :
    mapLookup g n = none ↔ n ∉ g.map Prod.fst := by
  induction g with
  | nil => simp [mapLookup]
  | cons p ps ih =>
    by_cases h : p.1 = n
    · simp [mapLookup, h]
    · simp [mapLookup, h, ih, Ne.symm h]

theorem mapLookup_append_self (g : List (String × Metric)) (n : String) (m : Metric)
    (h : mapLookup g n = none) : mapLookup (g ++ [(n, m)]) n = some m := by
  induction g with
  | nil => simp [mapLookup]
  | cons p ps ih =>
    by_cases hp : p.1 = n
    · simp [mapLookup, hp] at h
    · simp only [List.cons_append, mapLookup, if_neg hp] at h ⊢
      exact ih h

theorem Register_snapshots (s : CState) (m : Metric) :
    (Register s m).snapshots = s.snapshots := by
  rcases hm : mapLookup s.collectorMap m.name with _ | mm <;> simp [Register, hm]

theorem Register_collectorMap_of_absent (s : CState) (m : Metric)
    (h : mapLookup s.collectorMap m.name = none) :
    (Register s m).collectorMap = s.collectorMap ++ [(m.name, m)] := by
  simp [Register, h]

theorem getD_append_singleton (l : List (List (String × Metric))) (a : List (String × Metric)) :
    (l ++ [a]).getD l.length [] = a := by
  induction l with
  | nil => rfl
  | cons x xs ih => simp [ih]

theorem Register_of_present (s : CState) (m : Metric)
    (h : (mapLookup s.collectorMap m.name).isSome) : Register s m = s := by
  rcases hm : mapLookup s.collectorMap m.name with _ | mm
  · rw [hm] at h; exact absurd h (by simp)
  · simp [Register, hm]

/-! ## Helper lemmas about histograms and summaries -/

theorem observeCounts_length (v : ℚ) (bs cs : List ℚ) (h : cs.length = bs.length) :
    (observeCounts v bs cs).length = cs.length := by
  induction bs generalizing cs with
  | nil => cases cs <;> rfl
  | cons b bs ih =>
    cases cs with
    | nil => simp at h
    | cons c cs =>
      simp only [observeCounts, List.length_cons]
      rw [ih cs (by simpa using h)]

theorem observeCounts_getD (v : ℚ) (bs cs : List ℚ) (i : Nat)
    (hlen : cs.length = bs.length) (hi : i < bs.length) :
    (observeCounts v bs cs).getD i 0
      = cs.getD i 0 + (if v ≤ bs.getD i 0 then 1 else 0) := by
  induction bs generalizing cs i with
  | nil => simp at hi
  | cons b bs ih =>
    cases cs with
    | nil => simp at hlen
    | cons c cs =>
      cases i with
      | zero => by_cases hv : v ≤ b <;> simp [observeCounts, hv]
      | succ i =>
        simp only [observeCounts, List.getD_cons_succ]
        exact ih cs i (by simpa using hlen) (by simpa using hi)

theorem observeCounts_of_gt (v : ℚ) (bs cs : List ℚ) (h : ∀ b ∈ bs, b < v) :
    observeCounts v bs cs = cs := by
  induction bs generalizing cs with
  | nil => cases cs <;> rfl
  | cons b bs ih =>
    cases cs with
    | nil => rfl
    | cons c cs =>
      have hb : b < v := h b (by simp)
      simp only [observeCounts, if_neg (not_le.mpr hb)]
      rw [ih cs (fun x hx => h x (by simp [hx]))]

theorem Observe_buckets (h : HistogramMetric) (v : ℚ) :
    (h.Observe v).buckets = h.buckets := by
  unfold HistogramMetric.Observe
  split <;> rfl

theorem observeAllH_buckets (h : HistogramMetric) (vs : List ℚ) :
    (observeAllH h vs).buckets = h.buckets := by
  induction vs generalizing h with
  | nil => rfl
  | cons v vs ih =>
    show (observeAllH (h.Observe v) vs).buckets = _
    rw [ih, Observe_buckets]

theorem Observe_counts_length (h : HistogramMetric) (v : ℚ)
    (hl : h.counts.length = h.buckets.length) :
    (h.Observe v).counts.length = (h.Observe v).buckets.length := by
  unfold HistogramMetric.Observe
  split
  · exact hl
  · show (observeCounts v h.buckets h.counts).length = h.buckets.length
    rw [observeCounts_length v h.buckets h.counts hl, hl]

theorem observeAllH_counts_length (h : HistogramMetric) (vs : List ℚ)
    (hl : h.counts.length = h.buckets.length) :
    (observeAllH h vs).counts.length = (observeAllH h vs).buckets.length := by
  induction vs generalizing h with
  | nil => exact hl
  | cons v vs ih =>
    show (observeAllH (h.Observe v) vs).counts.length = _
    exact ih _ (Observe_counts_length h v hl)

theorem observeAllS_values (s : SummaryMetric) (vs : List ℚ) :
    (observeAllS s vs).values = s.values ++ vs := by
  induction vs generalizing s with
  | nil => simp [observeAllS]
  | cons v vs ih =>
    show (observeAllS (s.Observe v) vs).values = _
    rw [ih]
    simp [SummaryMetric.Observe]

theorem observeAllS_quantiles (s : SummaryMetric) (vs : List ℚ) :
    (observeAllS s vs).quantiles = s.quantiles := by
  induction vs generalizing s with
  | nil => rfl
  | cons v vs ih =>
    show (observeAllS (s.Observe v) vs).quantiles = _
    rw [ih]
    rfl

theorem Quantiles_eq_map (s : SummaryMetric) (hne : ¬ s.values.length = 0) :
    s.Quantiles = s.quantiles.map fun p => (p.1, rankValue s.values p.1) := by
  unfold SummaryMetric.Quantiles
  rw [if_neg hne]
  rfl

theorem lookupQ_map_self (f : ℚ → ℚ) (l : List (ℚ × ℚ)) (q tol : ℚ)
    (h : (q, tol) ∈ l) :
    lookupQ (l.map fun p => (p.1, f p.1)) q = some (f q) := by
  induction l with
  | nil => simp at h
  | cons p ps ih =>
    by_cases hp : p.1 = q
    · simp [lookupQ, hp]
    · have hmem : (q, tol) ∈ ps := by
        rcases List.mem_cons.mp h with h1 | h1
        · cases h1.symm
          exact absurd rfl hp
        · exact h1
      simp [lookupQ, hp, ih hmem]

theorem lookupQ_map_mem (f : ℚ → ℚ) (l : List (ℚ × ℚ)) (q : ℚ)
    (h : q ∈ l.map Prod.fst) :
    lookupQ (l.map fun p => (p.1, f p.1)) q = some (f q) := by
  rcases List.mem_map.mp h with ⟨p, hp, hpq⟩
  have := lookupQ_map_self f l p.1 p.2 (by simpa using hp)
  rwa [hpq] at this

theorem lookupQ_map_not_mem (f : ℚ → ℚ) (l : List (ℚ × ℚ)) (q : ℚ)
    (h : q ∉ l.map Prod.fst) :
    lookupQ (l.map fun p => (p.1, f p.1)) q = none := by
  induction l with
  | nil => rfl
  | cons p ps ih =>
    have hp : ¬ p.1 = q := fun he => h (by simp [he])
    have hq : q ∉ ps.map Prod.fst := fun hq => h (by simp [hq])
    simp [lookupQ, hp, ih hq]

/-! ## Claim theorems -/

/-- C3 (counterexample): the claim says `Observe` on a histogram with an empty
boundary sequence still increments the count and adds to the sum.  It does
not: `Observe` returns before touching either, so after observing `1` the
count is `0` (not `1`) and the sum is `0` (not `1`). -/
theorem histogram_empty_buckets_counterexample :
    ((NewHistogram "h" []).Observe 1).Count = 0 ∧
    ((NewHistogram "h" []).Observe 1).Sum = 0 ∧
    ¬ (((NewHistogram "h" []).Observe 1).Count = 1 ∧
        ((NewHistogram "h" []).Observe 1).Sum = 1) := by
  refine ⟨by decide, by decide, ?_⟩
  intro hcl
  exact absurd hcl.1 (by decide)

/-- C3 (amended): for a histogram whose boundary sequence is empty, `Observe`
is a complete no-op — it performs no bucket update and leaves the total count
and the running sum unchanged as well (the early return fires before the
count and sum updates). -/
theorem histogram_observe_empty_noop (h : HistogramMetric) (v : ℚ)
    (hb : h.buckets = []) : h.Observe v = h := by
  simp [HistogramMetric.Observe, hb]

/-- Witness for `histogram_observe_empty_noop` at a concrete empty histogram. -/
theorem histogram_observe_empty_noop_witness :
    (NewHistogram "h" []).buckets = [] ∧
    (NewHistogram "h" []).Observe 1 = NewHistogram "h" [] :=
  ⟨by decide, histogram_observe_empty_noop (NewHistogram "h" []) 1 (by decide)⟩

/-- C5: at most one metric is ever registered per name and the first
registration wins — `Register` on an already-present name is a silent no-op
(the whole state is unchanged and no failure is surfaced; the operation is
total), and after registering `m1` under a fresh name and then any `m2`
carrying the same name, `Get` still returns `m1`. -/
theorem register_first_wins :
    (∀ (s : CState) (m : Metric),
        (mapLookup s.collectorMap m.name).isSome → Register s m = s) ∧
    (∀ (s : CState) (m1 m2 : Metric),
        mapLookup s.collectorMap m1.name = none → m2.name = m1.name →
        Get (Register (Register s m1) m2) m1.name = some m1) := by
  constructor
  · exact Register_of_present
  · intro s m1 m2 habs hname
    have h1 : (Register s m1).collectorMap = s.collectorMap ++ [(m1.name, m1)] :=
      Register_collectorMap_of_absent s m1 habs
    have hlook : mapLookup (Register s m1).collectorMap m1.name = some m1 := by
      rw [h1]; exact mapLookup_append_self _ _ _ habs
    have hnoop : Register (Register s m1) m2 = Register s m1 :=
      Register_of_present _ _ (by rw [hname, hlook]; rfl)
    rw [hnoop]
    exact hlook

/-- Witness for `register_first_wins`: two distinct counter objects registered
under the same name `"a"`; the second registration changes nothing and `Get`
returns the first object. -/
theorem register_first_wins_witness :
    (mapLookup (Register NewCollector ⟨"a", 0⟩).collectorMap "a").isSome ∧
    Register (Register NewCollector ⟨"a", 0⟩) ⟨"a", 1⟩ = Register NewCollector ⟨"a", 0⟩ ∧
    Get (Register (Register NewCollector ⟨"a", 0⟩) ⟨"a", 1⟩) "a" = some ⟨"a", 0⟩ :=
  ⟨by decide,
   register_first_wins.1 (Register NewCollector ⟨"a", 0⟩) ⟨"a", 1⟩ (by decide),
   register_first_wins.2 NewCollector ⟨"a", 0⟩ ⟨"a", 1⟩ (by decide) rfl⟩

/-- C6: `Reset` on a counter makes `Value` return `0`, and `Reset` on a
summary makes `Count` and `Sum` return `0` and clears the retained samples, so
a subsequent `Quantiles` returns the empty result — after any prior history
(the statement quantifies over every reachable and unreachable state). -/
theorem reset_returns_to_zero :
    (∀ c : CounterMetric, c.Reset.Value = 0) ∧
    (∀ s : SummaryMetric,
        s.Reset.Count = 0 ∧ s.Reset.Sum = 0 ∧ s.Reset.values = [] ∧
        s.Reset.Quantiles = []) := by
  refine ⟨fun c => rfl, fun s => ⟨rfl, rfl, rfl, ?_⟩⟩
  simp [SummaryMetric.Quantiles, SummaryMetric.Reset]

/-- C4 (counterexample): the claim says the reporter loop obtains a defensive
snapshot via `Metrics()` and never hands `Report` the live internal map.  In
the source the tick body is `reporter.Report(globalCollector.metrics)`: the
argument is the collector's live `metrics` field itself.  Concretely, after
registering `"a"`, the map handed to `Report` at a tick is the live cell, and
a `Register` of `"b"` performed afterwards changes the contents seen through
that very cell — impossible for a defensive copy taken at the tick. -/
theorem startReporter_counterexample :
    reporterTickArg (Register NewCollector ⟨"a", 0⟩) = MapRef.live ∧
    readMap (Register (Register NewCollector ⟨"a", 0⟩) ⟨"b", 1⟩)
        (reporterTickArg (Register NewCollector ⟨"a", 0⟩))
      ≠ readMap (Register NewCollector ⟨"a", 0⟩)
          (reporterTickArg (Register NewCollector ⟨"a", 0⟩)) := by
  refine ⟨rfl, ?_⟩
  decide

/-- C4 (amended): on each tick the loop passes the global collector's live
internal metrics map itself to `Report` — it does not call `Metrics()` — so a
`Register` performed after the tick is visible through the map handed to
`Report`, whereas it would not be visible through a `Metrics()` snapshot
taken at the tick. -/
theorem startReporter_passes_live_map (s : CState) (m : Metric)
    (habs : mapLookup s.collectorMap m.name = none) :
    reporterTickArg s = MapRef.live ∧
    mapLookup (readMap (Register s m) (reporterTickArg s)) m.name = some m ∧
    mapLookup (readMap (Register (Metrics s).1 m) (MapRef.snap (Metrics s).2)) m.name
      = none := by
  refine ⟨rfl, ?_, ?_⟩
  · show mapLookup (Register s m).collectorMap m.name = some m
    rw [Register_collectorMap_of_absent s m habs]
    exact mapLookup_append_self _ _ _ habs
  · show mapLookup ((Register (Metrics s).1 m).snapshots.getD s.snapshots.length []) m.name
        = none
    rw [Register_snapshots]
    show mapLookup ((s.snapshots ++ [s.collectorMap]).getD s.snapshots.length []) m.name = none
    rw [getD_append_singleton]
    exact habs

theorem registerAll_keys (ms : List Metric) (s : CState)
    (hnd : (s.collectorMap.map Prod.fst).Nodup) :
    ((registerAll s ms).collectorMap.map Prod.fst).Nodup ∧
    ((registerAll s ms).collectorMap.map Prod.fst).toFinset
      = (s.collectorMap.map Prod.fst).toFinset ∪ (ms.map Metric.name).toFinset := by
  induction ms generalizing s with
  | nil => exact ⟨hnd, by simp [registerAll]⟩
  | cons m ms ih =>
    have hstep : registerAll s (m :: ms) = registerAll (Register s m) ms := rfl
    rcases hm : mapLookup s.collectorMap m.name with _ | mm
    · have hreg : (Register s m).collectorMap = s.collectorMap ++ [(m.name, m)] :=
        Register_collectorMap_of_absent s m hm
      have hmem : m.name ∉ s.collectorMap.map Prod.fst :=
        (mapLookup_eq_none_iff _ _).mp hm
      have hnd' : ((Register s m).collectorMap.map Prod.fst).Nodup := by
        rw [hreg]
        simp only [List.map_append, List.map_cons, List.map_nil]
        exact List.Nodup.append hnd (List.nodup_singleton _) (by
          intro a ha hb
          simp only [List.mem_singleton] at hb
          subst hb
          exact hmem ha)
      rcases ih (Register s m) hnd' with ⟨ih1, ih2⟩
      refine ⟨by rw [hstep]; exact ih1, ?_⟩
      rw [hstep, ih2, hreg]
      ext x
      simp only [List.map_append, List.map_cons, List.map_nil, List.toFinset_append,
        Finset.mem_union, List.mem_toFinset, List.mem_cons, List.not_mem_nil,
        List.mem_singleton, or_false]
      tauto
    · have hreg : Register s m = s := Register_of_present s m (by rw [hm]; rfl)
      have hmem : m.name ∈ s.collectorMap.map Prod.fst := by
        by_contra hcon
        rw [← mapLookup_eq_none_iff] at hcon
        rw [hcon] at hm
        exact Option.noConfusion hm
      rcases ih (Register s m) (by rw [hreg]; exact hnd) with ⟨ih1, ih2⟩
      refine ⟨by rw [hstep]; exact ih1, ?_⟩
      rw [hstep, ih2, hreg]
      simp only [List.map_cons, List.toFinset_cons]
      rw [Finset.union_insert, Finset.insert_eq_self.mpr]
      exact Finset.mem_union_left _ (List.mem_toFinset.mpr hmem)

/-- C7: `Metrics()` returns an independent copy of the name-to-metric map:
the snapshot read through the returned reference equals the live map at the
instant of the call; a `Register` performed after `Metrics()` returns leaves
the snapshot's contents (hence its membership) unchanged; and the size of the
live map after registering any list of metrics into a fresh collector equals
the number of distinct names in that list, irrespective of registration
order. -/
theorem metrics_snapshot_independent :
    (∀ s : CState,
        readMap (Metrics s).1 (MapRef.snap (Metrics s).2) = readMap s MapRef.live) ∧
    (∀ (s : CState) (m : Metric),
        readMap (Register (Metrics s).1 m) (MapRef.snap (Metrics s).2)
          = readMap (Metrics s).1 (MapRef.snap (Metrics s).2)) ∧
    (∀ ms : List Metric,
        (readMap (registerAll NewCollector ms) MapRef.live).length
          = (ms.map Metric.name).toFinset.card) := by
  refine ⟨?_, ?_, ?_⟩
  · intro s
    show (s.snapshots ++ [s.collectorMap]).getD s.snapshots.length [] = s.collectorMap
    exact getD_append_singleton _ _
  · intro s m
    show (Register (Metrics s).1 m).snapshots.getD s.snapshots.length []
        = (Metrics s).1.snapshots.getD s.snapshots.length []
    rw [Register_snapshots]
  · intro ms
    rcases registerAll_keys ms NewCollector (by simp [NewCollector]) with ⟨hnd, hfin⟩
    have hlen : (readMap (registerAll NewCollector ms) MapRef.live).length
        = ((registerAll NewCollector ms).collectorMap.map Prod.fst).length := by
      show (registerAll NewCollector ms).collectorMap.length = _
      rw [List.length_map]
    rw [hlen, ← List.toFinset_card_of_nodup hnd, hfin]
    simp [NewCollector]

/-- C1: for a histogram constructed with a non-empty ascending boundary list
(after any prior observations), `Observe v` adds `v` to the running sum, adds
`1` to the total count, and adds `1` to the count of exactly those buckets
whose bound is `≥ v` (cumulative less-or-equal semantics); a value above every
bound changes no bucket.  In particular the boundaries `[0.5, 1.0, 3.0, 5.0]`
with observations `0.3, 0.6, 2.0, 10.0` yield bucket counts `[1, 2, 3, 3]`,
`Count() = 4` and `Sum() = 12.9`. -/
theorem histogram_observe_cumulative :
    (∀ (nm : String) (bs vs : List ℚ) (v : ℚ),
        bs ≠ [] → List.Sorted (· ≤ ·) bs →
        (observeAllH (NewHistogram nm bs) vs).count + 1 < U64 →
        ((observeAllH (NewHistogram nm bs) vs).Observe v).Sum
            = (observeAllH (NewHistogram nm bs) vs).Sum + v ∧
        ((observeAllH (NewHistogram nm bs) vs).Observe v).Count
            = (observeAllH (NewHistogram nm bs) vs).Count + 1 ∧
        (∀ i, i < bs.length →
            ((observeAllH (NewHistogram nm bs) vs).Observe v).Value.getD i 0
              = (observeAllH (NewHistogram nm bs) vs).Value.getD i 0
                + (if v ≤ bs.getD i 0 then 1 else 0)) ∧
        ((∀ b ∈ bs, b < v) →
            ((observeAllH (NewHistogram nm bs) vs).Observe v).Value
              = (observeAllH (NewHistogram nm bs) vs).Value)) ∧
    ((observeAllH (NewHistogram "lat" [1/2, 1, 3, 5]) [3/10, 3/5, 2, 10]).Value
        = [1, 2, 3, 3] ∧
     (observeAllH (NewHistogram "lat" [1/2, 1, 3, 5]) [3/10, 3/5, 2, 10]).Count = 4 ∧
     (observeAllH (NewHistogram "lat" [1/2, 1, 3, 5]) [3/10, 3/5, 2, 10]).Sum = 129/10) := by
  constructor
  · intro nm bs vs v hbs hsort hcount
    have hb0 : (NewHistogram nm bs).buckets = bs := by
      show bs.insertionSort (· ≤ ·) = bs
      exact hsort.insertionSort_eq
    have hbuckets : (observeAllH (NewHistogram nm bs) vs).buckets = bs := by
      rw [observeAllH_buckets, hb0]
    have hlen : (observeAllH (NewHistogram nm bs) vs).counts.length
        = (observeAllH (NewHistogram nm bs) vs).buckets.length := by
      apply observeAllH_counts_length
      show (List.replicate ((bs.insertionSort (· ≤ ·)).length) (0 : ℚ)).length = _
      simp [NewHistogram]
    have hne : ¬ (observeAllH (NewHistogram nm bs) vs).buckets.length = 0 := by
      rw [hbuckets]
      exact fun h0 => hbs (List.length_eq_zero.mp h0)
    have hob : ((observeAllH (NewHistogram nm bs) vs).Observe v)
        = { observeAllH (NewHistogram nm bs) vs with
            count := ((observeAllH (NewHistogram nm bs) vs).count + 1) % U64
            sum := (observeAllH (NewHistogram nm bs) vs).sum + v
            counts := observeCounts v (observeAllH (NewHistogram nm bs) vs).buckets
              (observeAllH (NewHistogram nm bs) vs).counts } := by
      unfold HistogramMetric.Observe
      rw [if_neg hne]
    refine ⟨?_, ?_, ?_, ?_⟩
    · rw [hob]; rfl
    · rw [hob]
      show ((observeAllH (NewHistogram nm bs) vs).count + 1) % U64 = _
      exact Nat.mod_eq_of_lt hcount
    · intro i hi
      rw [hob]
      show (observeCounts v (observeAllH (NewHistogram nm bs) vs).buckets
          (observeAllH (NewHistogram nm bs) vs).counts).getD i 0 = _
      rw [observeCounts_getD v _ _ i (by rw [hlen]) (by rw [hbuckets]; exact hi), hbuckets]
      rfl
    · intro hgt
      rw [hob]
      show observeCounts v (observeAllH (NewHistogram nm bs) vs).buckets
          (observeAllH (NewHistogram nm bs) vs).counts = _
      rw [hbuckets, observeCounts_of_gt v bs _ hgt]
      rfl
  · refine ⟨?_, ?_, ?_⟩ <;>
      norm_num [observeAllH, HistogramMetric.Observe, HistogramMetric.Value,
        HistogramMetric.Count, HistogramMetric.Sum, NewHistogram, observeCounts,
        List.insertionSort, List.orderedInsert, U64]

/-- Witness for `histogram_observe_cumulative`: its general part applied to
the concrete boundaries `[1/2, 1, 3, 5]`, no prior observations, and the
observation `2`, read back at bucket index `2` (bound `3`). -/
theorem histogram_observe_cumulative_witness :
    ([mkRat 1 2, 1, 3, 5] : List ℚ) ≠ [] ∧
    List.Sorted (· ≤ ·) [mkRat 1 2, (1 : ℚ), 3, 5] ∧
    (observeAllH (NewHistogram "w" [mkRat 1 2, 1, 3, 5]) []).count + 1 < U64 ∧
    ((observeAllH (NewHistogram "w" [mkRat 1 2, 1, 3, 5]) []).Observe 2).Value.getD 2 0
      = (observeAllH (NewHistogram "w" [mkRat 1 2, 1, 3, 5]) []).Value.getD 2 0
        + (if (2 : ℚ) ≤ [mkRat 1 2, (1 : ℚ), 3, 5].getD 2 0 then 1 else 0) :=
  ⟨by decide, by decide, by decide,
   (histogram_observe_cumulative.1 "w" [mkRat 1 2, 1, 3, 5] [] 2
      (by decide) (by decide) (by decide)).2.2.1 2 (by decide)⟩

/-- C2: `Quantiles()` of a summary returns the empty result when no samples
are retained; with `N > 0` samples it returns, for every configured quantile
target `q ≥ 0`, the value of the ascending-sorted copy of the samples at
index `floor(q * N)` clamped to `N - 1` (nearest-rank, no interpolation).  In
particular targets `{0.5, 0.9}` over observations `5, 3, 1, 4, 2` give
`0.5 ↦ 3` and `0.9 ↦ 5`. -/
theorem summary_quantiles_nearest_rank :
    (∀ s : SummaryMetric,
        (s.values.length = 0 → s.Quantiles = []) ∧
        (∀ q tol : ℚ, (q, tol) ∈ s.quantiles → 0 ≤ q → 0 < s.values.length →
          lookupQ s.Quantiles q
            = some ((s.values.insertionSort (· ≤ ·)).getD
                (min (⌊q * (s.values.length : ℚ)⌋.toNat) (s.values.length - 1)) 0))) ∧
    (lookupQ (observeAllS (NewSummary "lat" [(1/2, 1/20), (9/10, 1/100)])
        [5, 3, 1, 4, 2]).Quantiles (1/2) = some 3 ∧
     lookupQ (observeAllS (NewSummary "lat" [(1/2, 1/20), (9/10, 1/100)])
        [5, 3, 1, 4, 2]).Quantiles (9/10) = some 5) := by
  constructor
  · intro s
    constructor
    · intro h0
      unfold SummaryMetric.Quantiles
      rw [if_pos h0]
    · intro q tol hmem hq hlen
      have hne : ¬ s.values.length = 0 := Nat.pos_iff_ne_zero.mp hlen
      rw [Quantiles_eq_map s hne, lookupQ_map_self _ _ q tol hmem]
      unfold rankValue
      have hL : ((s.values.insertionSort (· ≤ ·)).length : ℚ)
          = (s.values.length : ℚ) := by
        rw [List.length_insertionSort]
      have hLi : ((s.values.insertionSort (· ≤ ·)).length : Int)
          = (s.values.length : Int) := by
        rw [List.length_insertionSort]
      have hF0 : 0 ≤ ⌊q * (s.values.length : ℚ)⌋ :=
        Int.floor_nonneg.mpr (mul_nonneg hq (Nat.cast_nonneg _))
      have hgi : goInt (q * ((s.values.insertionSort (· ≤ ·)).length : ℚ))
          = ⌊q * (s.values.length : ℚ)⌋ := by
        rw [hL]
        unfold goInt
        rw [if_pos (mul_nonneg hq (Nat.cast_nonneg _))]
      rw [hgi, hLi]
      unfold goIndex
      have hidx : (if ((s.values.length : Int)) ≤ ⌊q * (s.values.length : ℚ)⌋
            then ((s.values.length : Int)) - 1
            else ⌊q * (s.values.length : ℚ)⌋).toNat
          = min (⌊q * (s.values.length : ℚ)⌋.toNat) (s.values.length - 1) := by
        split
        · next hle => omega
        · next hgt => omega
      rw [hidx]
  · constructor <;>
      norm_num [observeAllS, SummaryMetric.Observe, SummaryMetric.Quantiles,
        NewSummary, lookupQ, goInt, goIndex, List.insertionSort,
        List.orderedInsert, U64, Int.toNat, List.getD]

/-- Witness for `summary_quantiles_nearest_rank`: both general conjuncts
applied to concrete summaries — the empty-sample case at a fresh summary, and
the nearest-rank case at the target `1/2` over the observations
`5, 3, 1, 4, 2`. -/
theorem summary_quantiles_nearest_rank_witness :
    (NewSummary "w" [(mkRat 1 2, mkRat 1 20)]).values.length = 0 ∧
    (NewSummary "w" [(mkRat 1 2, mkRat 1 20)]).Quantiles = [] ∧
    ((mkRat 1 2, mkRat 1 20)
        ∈ (observeAllS (NewSummary "w" [(mkRat 1 2, mkRat 1 20)]) [5, 3, 1, 4, 2]).quantiles ∧
     (0 : ℚ) ≤ mkRat 1 2 ∧
     0 < (observeAllS (NewSummary "w" [(mkRat 1 2, mkRat 1 20)]) [5, 3, 1, 4, 2]).values.length ∧
     lookupQ (observeAllS (NewSummary "w" [(mkRat 1 2, mkRat 1 20)]) [5, 3, 1, 4, 2]).Quantiles
         (mkRat 1 2)
       = some (((observeAllS (NewSummary "w" [(mkRat 1 2, mkRat 1 20)]) [5, 3, 1, 4, 2]).values.insertionSort
             (· ≤ ·)).getD
           (min (⌊mkRat 1 2 * (((observeAllS (NewSummary "w" [(mkRat 1 2, mkRat 1 20)]) [5, 3, 1, 4, 2]).values.length : ℚ))⌋.toNat)
             ((observeAllS (NewSummary "w" [(mkRat 1 2, mkRat 1 20)]) [5, 3, 1, 4, 2]).values.length - 1)) 0)) :=
  ⟨rfl,
   (summary_quantiles_nearest_rank.1 (NewSummary "w" [(mkRat 1 2, mkRat 1 20)])).1 rfl,
   by decide, by decide, by decide,
   (summary_quantiles_nearest_rank.1
      (observeAllS (NewSummary "w" [(mkRat 1 2, mkRat 1 20)]) [5, 3, 1, 4, 2])).2
     (mkRat 1 2) (mkRat 1 20) (by decide) (by decide) (by decide)⟩

/-- C8: the result of `Quantiles()` does not depend on the tolerance values
of the quantile configuration — two summaries whose configurations have the
same quantile keys (with arbitrary, possibly different tolerance values), fed
the same observations, agree on the lookup of every quantile. -/
theorem quantiles_ignore_tolerance (nm1 nm2 : String) (qs1 qs2 : List (ℚ × ℚ))
    (obs : List ℚ)
    (hkeys : ∀ x, x ∈ qs1.map Prod.fst ↔ x ∈ qs2.map Prod.fst) :
    ∀ q, lookupQ (observeAllS (NewSummary nm1 qs1) obs).Quantiles q
        = lookupQ (observeAllS (NewSummary nm2 qs2) obs).Quantiles q := by
  intro q
  have hv1 : (observeAllS (NewSummary nm1 qs1) obs).values = obs := by
    rw [observeAllS_values]
    rfl
  have hv2 : (observeAllS (NewSummary nm2 qs2) obs).values = obs := by
    rw [observeAllS_values]
    rfl
  have hq1 : (observeAllS (NewSummary nm1 qs1) obs).quantiles = qs1 :=
    observeAllS_quantiles _ _
  have hq2 : (observeAllS (NewSummary nm2 qs2) obs).quantiles = qs2 :=
    observeAllS_quantiles _ _
  by_cases hlen : obs.length = 0
  · have e1 : (observeAllS (NewSummary nm1 qs1) obs).Quantiles = [] := by
      unfold SummaryMetric.Quantiles
      rw [if_pos (by rw [hv1]; exact hlen)]
    have e2 : (observeAllS (NewSummary nm2 qs2) obs).Quantiles = [] := by
      unfold SummaryMetric.Quantiles
      rw [if_pos (by rw [hv2]; exact hlen)]
    rw [e1, e2]
  · rw [Quantiles_eq_map _ (by rw [hv1]; exact hlen),
      Quantiles_eq_map _ (by rw [hv2]; exact hlen)]
    simp only [hv1, hv2, hq1, hq2]
    by_cases hqmem : q ∈ qs1.map Prod.fst
    · rw [lookupQ_map_mem _ qs1 q hqmem, lookupQ_map_mem _ qs2 q ((hkeys q).mp hqmem)]
    · rw [lookupQ_map_not_mem _ qs1 q hqmem,
        lookupQ_map_not_mem _ qs2 q (fun hx => hqmem ((hkeys q).mpr hx))]

/-- Witness for `quantiles_ignore_tolerance`: the same quantile keys
`{1/2, 9/10}` with tolerances `{1/20, 1/100}` on one side and `{7, 42}` on
the other, over the observations `5, 3, 1, 4, 2`, read at `1/2`. -/
theorem quantiles_ignore_tolerance_witness :
    lookupQ (observeAllS (NewSummary "a" [(mkRat 1 2, mkRat 1 20), (mkRat 9 10, mkRat 1 100)])
        [5, 3, 1, 4, 2]).Quantiles (mkRat 1 2)
      = lookupQ (observeAllS (NewSummary "b" [(mkRat 1 2, (7 : ℚ)), (mkRat 9 10, (42 : ℚ))])
        [5, 3, 1, 4, 2]).Quantiles (mkRat 1 2) :=
  quantiles_ignore_tolerance "a" "b"
    [(mkRat 1 2, mkRat 1 20), (mkRat 9 10, mkRat 1 100)]
    [(mkRat 1 2, (7 : ℚ)), (mkRat 9 10, (42 : ℚ))]
    [5, 3, 1, 4, 2] (fun x => by simp) (mkRat 1 2)

/-- Witness for `startReporter_passes_live_map` at the empty collector and a
concrete metric. -/
theorem startReporter_passes_live_map_witness :
    mapLookup NewCollector.collectorMap "a" = none ∧
    (reporterTickArg NewCollector = MapRef.live ∧
     mapLookup (readMap (Register NewCollector ⟨"a", 0⟩) (reporterTickArg NewCollector)) "a"
       = some ⟨"a", 0⟩ ∧
     mapLookup (readMap (Register (Metrics NewCollector).1 ⟨"a", 0⟩)
         (MapRef.snap (Metrics NewCollector).2)) "a" = none) :=
  ⟨by decide, startReporter_passes_live_map NewCollector ⟨"a", 0⟩ (by decide)⟩

end GoMetrics
